import Mathlib

/-!
Verification of the project recommendation / affinity engine of the esp-uantwerp
portal, as implemented in `src/controllers/projects/controller.py`.

The request handlers are embedded shallowly: dictionary accesses (`request.args`,
the flask `session`) become association-list lookups, machine floats become
rationals, and a handler that can raise an uncaught exception returns an explicit
error value (`Except.error` / `Outcome.raised`) instead of its normal response.
The data-access layer called by the handlers (`LinkDataAccess`,
`ProjectDataAccess`, `ClickDataAccess`) is not part of the repository snapshot;
those operations are modelled from the specification, as marked on each
definition.
-/

namespace Esp

/-- Summary of a project as read from the external catalog: opaque integer id,
active (not archived) flag, and accumulated view count. -/
structure ProjectSummary where
  project_id : Nat
  active : Bool
  view_count : Nat
deriving DecidableEq

/-- A link row as returned by the link data-access layer for a queried project:
`project_1` is the queried project, `project_2` the other member of the pair,
`match_percent` the stored strength. -/
structure Link where
  project_1 : Nat
  project_2 : Nat
  match_percent : ℚ
deriving DecidableEq

/-- The affinity store: an association list from normalised
(smaller id, larger id) project pairs to the stored match strength. -/
abbrev AffinityStore := List ((Nat × Nat) × ℚ)

/-- Association-list lookup, modelling Python dictionary access
(`request.args[k]`, `session[k]`, `session.get(k)`). -/
def lookupArg {α : Type} : List (String × α) → String → Option α
  | [], _ => none
  | (k, v) :: rest, key => if k = key then some v else lookupArg rest key

/-- Normalised key of an unordered project pair: the smaller id first
(spec: `project_a < project_b` by convention). -/
def pairKey (a b : Nat) : Nat × Nat :=
  if a ≤ b then (a, b) else (b, a)

/-- First strength stored under a pair key, if any. -/
def findStrength : AffinityStore → Nat × Nat → Option ℚ
  | [], _ => none
  | e :: rest, key => if e.1 = key then some e.2 else findStrength rest key

/-- Replace the strength stored under a key, or append a fresh entry. -/
def setStrength : AffinityStore → Nat × Nat → ℚ → AffinityStore
  | [], k, v => [(k, v)]
  | e :: rest, k, v => if e.1 = k then (k, v) :: rest else e :: setStrength rest k v

/-- Modelled from the spec: `AffinityStore.get_strength` (the read side of
`LinkDataAccess`, which is not under `src/`) — 0 if no link exists, the stored
strength otherwise. -/
def get_strength (s : AffinityStore) (a b : Nat) : ℚ :=
  match findStrength s (pairKey a b) with
  | some v => v
  | none => 0

/-- Clamp a value into the interval from 0 to 1. -/
def clamp01 (x : ℚ) : ℚ := if x < 0 then 0 else if 1 < x then 1 else x

/-- Modelled from the spec: the successful path of
`LinkDataAccess.update_match_percent` (not under `src/`) — add the delta to the
existing strength of the normalised pair, creating the link at strength 0 if
absent, and clamp the result into the bounded range. -/
def reinforceOk (s : AffinityStore) (a b : Nat) (d : ℚ) : AffinityStore :=
  setStrength s (pairKey a b) (clamp01 (get_strength s a b + d))

/-- Modelled from the spec: `LinkDataAccess.update_match_percent` (not under
`src/`) — a reinforcement of a pair with equal members is rejected with
`InvalidPair`; otherwise the clamped update is applied. -/
def reinforce (s : AffinityStore) (a b : Nat) (d : ℚ) : Except String AffinityStore :=
  if a = b then .error ("InvalidPair") else .ok (reinforceOk s a b d)

/-- A finite sequence of reinforcement operations applied in order; a rejected
operation leaves the store unchanged. -/
def applyOps (s : AffinityStore) : List (Nat × Nat × ℚ) → AffinityStore
  | [] => s
  | (a, b, d) :: rest =>
    match reinforce s a b d with
    | .ok s2 => applyOps s2 rest
    | .error _ => applyOps s rest

/-- Insertion into a list sorted by the boolean relation `le`. -/
def insertBy {α : Type} (le : α → α → Bool) (x : α) : List α → List α
  | [] => [x]
  | y :: rest => if le x y then x :: y :: rest else y :: insertBy le x rest

/-- Insertion sort by the boolean relation `le`. -/
def sortBy {α : Type} (le : α → α → Bool) : List α → List α
  | [] => []
  | x :: rest => insertBy le x (sortBy le rest)

/-- Ordering of link rows: strength descending, ties broken by the other
project id ascending. -/
def linkOrder (x y : Link) : Bool :=
  decide (y.match_percent < x.match_percent) ||
    (x.match_percent == y.match_percent && decide (x.project_2 ≤ y.project_2))

/-- Modelled from the spec: `LinkDataAccess.get_links_for_project` (not under
`src/`) — all links involving the queried project, the other endpoint exposed
as `project_2`, sorted by strength descending with ties by the other id
ascending. -/
def get_links_for_project (s : AffinityStore) (p : Nat) : List Link :=
  sortBy linkOrder
    ((s.filter (fun e => e.1.1 == p || e.1.2 == p)).map
      (fun e =>
        { project_1 := p
          project_2 := if e.1.1 == p then e.1.2 else e.1.1
          match_percent := e.2 }))

/-- Modelled from the spec: `ProjectDataAccess.get_project` (not under `src/`)
— `fetch_project(id, active_only)` returns the first catalog entry with the
requested id that passes the active-only filter, or not-found. -/
def get_project : List ProjectSummary → Nat → Bool → Option ProjectSummary
  | [], _, _ => none
  | p :: rest, pid, activeOnly =>
    if p.project_id == pid && (!activeOnly || p.active) then some p
    else get_project rest pid activeOnly

/-- Ordering of the popularity fallback: view count descending, ties broken by
project id ascending. -/
def viewedOrder (x y : ProjectSummary) : Bool :=
  decide (y.view_count < x.view_count) ||
    (x.view_count == y.view_count && decide (x.project_id ≤ y.project_id))

/-- Modelled from the spec: `ProjectDataAccess.get_most_viewed_projects` (not
under `src/`) — the `n` most-viewed projects passing the active-only filter,
view count descending, ties by id ascending. -/
def get_most_viewed_projects (catalog : List ProjectSummary) (n : Nat)
    (activeOnly : Bool) : List ProjectSummary :=
  (sortBy viewedOrder (catalog.filter (fun p => !activeOnly || p.active))).take n

/-- Python `set.add`: insert the element unless it is already a member. -/
def insertSet (acc : List ProjectSummary) (p : ProjectSummary) : List ProjectSummary :=
  if p ∈ acc then acc else acc ++ [p]

/-- The explicit-link loop of `get_all_project_data` (controller.py lines
323-329): iterate over the link rows, stop once four candidates are collected,
and add the project fetched for each link's `project_2` (a link target failing
the active-only filter contributes nothing). -/
def linkStep (catalog : List ProjectSummary) (activeOnly : Bool) :
    List Link → List ProjectSummary → List ProjectSummary
  | [], acc => acc
  | l :: rest, acc =>
    if 4 ≤ acc.length then acc
    else
      match get_project catalog l.project_2 activeOnly with
      | some pr => linkStep catalog activeOnly rest (insertSet acc pr)
      | none => linkStep catalog activeOnly rest acc

/-- The fallback while-loop of `get_all_project_data` (controller.py lines
334-338): while fewer than four candidates are collected, read the next entry
of the most-viewed batch, skipping the source project. Reading past the end of
the batch raises IndexError in the source; that is modelled as `none`. -/
def fillLoop (p_id : Nat) :
    List ProjectSummary → List ProjectSummary → Option (List ProjectSummary)
  | [], acc => if 4 ≤ acc.length then some acc else none
  | pr :: rest, acc =>
    if 4 ≤ acc.length then some acc
    else fillLoop p_id rest (if pr.project_id == p_id then acc else insertSet acc pr)

/-- The related-projects selection of `get_all_project_data` (controller.py
lines 323-338; the spec's `get_related(project_id, active_only)`): explicit
links first, then, if fewer than four candidates were found, the most-viewed
fallback over a batch of eight. -/
def get_related (catalog : List ProjectSummary) (store : AffinityStore)
    (p_id : Nat) (active_only : Bool) : Option (List ProjectSummary) :=
  let afterLinks := linkStep catalog active_only (get_links_for_project store p_id) []
  if afterLinks.length < 4 then
    fillLoop p_id (get_most_viewed_projects catalog 8 active_only) afterLinks
  else some afterLinks

/-- The parts of a flask JSON response the claims are about: the body-level
`success` flag, the optional `message` field, and the HTTP status code. -/
structure JsonResponse where
  success : Bool
  message : Option String
  status : Nat
deriving DecidableEq

/-- Outcome of a request handler: a JSON response, a bare empty-string
response, a rendered template, or an uncaught exception propagating out of the
handler. -/
inductive Outcome where
  | json (r : JsonResponse)
  | empty
  | rendered
  | raised (msg : String)
deriving DecidableEq

/-- GET `/project-page` (controller.py lines 252-261): when both `from` and
`project_id` request arguments are present, reinforce the pair by 0.05 (= 1/20)
and render the page. The reinforcement is not wrapped in any try/except, so a
failing store operation propagates out of the handler. -/
def project_page (store : AffinityStore) (args : List (String × Nat)) :
    AffinityStore × Outcome :=
  match lookupArg args ("from"), lookupArg args ("project_id") with
  | some f, some pid =>
    match reinforce store f pid (1/20) with
    | .ok s2 => (s2, .rendered)
    | .error e => (store, .raised e)
  | _, _ => (store, .rendered)

/-- POST `/add-view/<p_id>` (controller.py lines 391-403), over the outcome of
the underlying `add_view_count` call: on success a success JSON with status
200; on any exception the handler prints a log line and returns a bare empty
string. -/
def add_view (dbResult : Except String Unit) : Outcome :=
  match dbResult with
  | .ok _ => .json { success := true, message := none, status := 200 }
  | .error _ => .empty

/-- The failure message built by `register_user_data` (controller.py line 433). -/
def registerFailMsg (p_id : Nat) : String :=
  "Failed to register user behaviour for project " ++ toString p_id ++ "."

/-- POST `/register-user-data/<p_id>` (controller.py lines 419-434), over the
outcomes of the underlying view-increment and click-recording calls: the click
is only recorded when the session carries a `session_id`; on any exception the
handler returns a body with `success: True` and the failure message, under
HTTP status 400. -/
def register_user_data (p_id : Nat) (sess : List (String × Nat))
    (addViewResult addClickResult : Except String Unit) : JsonResponse :=
  match addViewResult with
  | .error _ => { success := true, message := some (registerFailMsg p_id), status := 400 }
  | .ok _ =>
    match lookupArg sess ("session_id") with
    | some _ =>
      match addClickResult with
      | .error _ => { success := true, message := some (registerFailMsg p_id), status := 400 }
      | .ok _ => { success := true, message := none, status := 200 }
    | none => { success := true, message := none, status := 200 }

/-- POST `/update-recommendations/<p1>/<p2>/<amount>` (controller.py lines
437-451). The ambient authorization state (flask's `current_user`, available to
every handler) is passed in explicitly; the handler body never consults it. A
failing store update is swallowed: the handler prints a log line and returns a
bare empty string. -/
def update_recommendations (authenticated : Bool) (role : String)
    (store : AffinityStore) (p1_id p2_id : Nat) (amount : ℚ) :
    AffinityStore × Outcome :=
  match reinforce store p1_id p2_id amount with
  | .ok s2 => (s2, .json { success := true, message := none, status := 200 })
  | .error _ => (store, .empty)

/-- GET `/can-modify/<p_id>` (controller.py lines 264-275): a handler that does
consult the ambient authorization state, shown for contrast with
`update_recommendations`. -/
def can_modify (authenticated : Bool) (role : String)
    (authorized_for_project : Bool) : Bool :=
  authenticated && (role == "admin" || (role == "employee" && authorized_for_project))

/-- GET `/get-all-project-data/<p_id>` (controller.py lines 309-346):
`session["archive"]` is read without a default (line 316), so a session missing
the key raises KeyError; then the project is fetched through the active-only
filter and the related-projects selection runs. The liked-flag and
research-group parts of the handler touch no state the claims are about and are
omitted. -/
def get_all_project_data (catalog : List ProjectSummary) (store : AffinityStore)
    (sess : List (String × Bool)) (p_id : Nat) :
    Except String (ProjectSummary × List ProjectSummary) :=
  match lookupArg sess ("archive") with
  | none => .error ("KeyError: archive")
  | some archive =>
    match get_project catalog p_id (!archive) with
    | none => .error ("NotFound")
    | some p_data =>
      match get_related catalog store p_id (!archive) with
      | some links => .ok (p_data, links)
      | none => .error ("IndexError")

/-- The active-only filter computation of GET `/search/<query>` (controller.py
line 414): `session.get("archive")` with a default, so a missing key yields the
active-only filter instead of raising. -/
def search_active_only (sess : List (String × Bool)) : Bool :=
  !((lookupArg sess ("archive")).getD false)

/-- Well-formed store: every link is keyed by the normalised pair — smaller id
strictly first. Reinforcement only ever writes such keys. -/
abbrev WFStore (s : AffinityStore) : Prop := ∀ e ∈ s, e.1.1 < e.1.2

/-- Bounded store: every stored strength lies between 0 and 1. -/
abbrev BoundedStore (s : AffinityStore) : Prop := ∀ e ∈ s, 0 ≤ e.2 ∧ e.2 ≤ 1

/-- A five-project all-active catalog with distinct view counts, used as a
concrete evaluation input. -/
def demoCatalog : List ProjectSummary :=
  [⟨1, true, 10⟩, ⟨2, true, 9⟩, ⟨3, true, 8⟩, ⟨4, true, 7⟩, ⟨5, true, 6⟩]

/-- A store holding a single strong link between projects 1 and 2. -/
def demoStore : AffinityStore := [((1, 2), 9/10)]

/-- The related-projects list produced for project 1 over `demoCatalog` and
`demoStore`. -/
def demoRelated : List ProjectSummary :=
  [⟨2, true, 9⟩, ⟨3, true, 8⟩, ⟨4, true, 7⟩, ⟨5, true, 6⟩]

/-- A catalog with only two active projects: too small for the fallback loop
to ever collect four candidates. -/
def tinyCatalog : List ProjectSummary := [⟨1, true, 5⟩, ⟨2, true, 3⟩]

/-! ### Store lemmas -/

theorem clamp01_mem (x : ℚ) : 0 ≤ clamp01 x ∧ clamp01 x ≤ 1 := by
  unfold clamp01
  by_cases h0 : x < 0
  · rw [if_pos h0]
    norm_num
  · rw [if_neg h0]
    by_cases h1 : 1 < x
    · rw [if_pos h1]
      norm_num
    · rw [if_neg h1]
      exact ⟨le_of_not_lt h0, le_of_not_lt h1⟩

theorem mem_setStrength {s : AffinityStore} {k : Nat × Nat} {v : ℚ} {e : (Nat × Nat) × ℚ}
    (h : e ∈ setStrength s k v) : e = (k, v) ∨ e ∈ s := by
  induction s with
  | nil => simpa [setStrength] using h
  | cons hd tl ih =>
    unfold setStrength at h
    by_cases hk : hd.1 = k
    · rw [if_pos hk] at h
      rcases List.mem_cons.mp h with h | h
      · exact Or.inl h
      · exact Or.inr (List.mem_cons_of_mem _ h)
    · rw [if_neg hk] at h
      rcases List.mem_cons.mp h with h | h
      · exact Or.inr (h ▸ List.mem_cons_self _ _)
      · rcases ih h with h' | h'
        · exact Or.inl h'
        · exact Or.inr (List.mem_cons_of_mem _ h')

theorem findStrength_mem {s : AffinityStore} {k : Nat × Nat} {v : ℚ}
    (h : findStrength s k = some v) : (k, v) ∈ s := by
  induction s with
  | nil => simp [findStrength] at h
  | cons hd tl ih =>
    unfold findStrength at h
    by_cases hk : hd.1 = k
    · rw [if_pos hk] at h
      injection h with hv
      have he : (k, v) = hd := by
        cases hd
        cases hk
        cases hv
        rfl
      rw [he]
      exact List.mem_cons_self _ _
    · rw [if_neg hk] at h
      exact List.mem_cons_of_mem _ (ih h)

theorem findStrength_setStrength (s : AffinityStore) (k : Nat × Nat) (v : ℚ) :
    findStrength (setStrength s k v) k = some v := by
  induction s with
  | nil => simp [setStrength, findStrength]
  | cons hd tl ih =>
    unfold setStrength
    by_cases hk : hd.1 = k
    · rw [if_pos hk]
      simp [findStrength]
    · rw [if_neg hk]
      unfold findStrength
      rw [if_neg hk]
      exact ih

theorem get_strength_bounded (s : AffinityStore) (a b : Nat) (h : BoundedStore s) :
    0 ≤ get_strength s a b ∧ get_strength s a b ≤ 1 := by
  unfold get_strength
  cases hf : findStrength s (pairKey a b) with
  | none => norm_num
  | some v => exact h _ (findStrength_mem hf)

theorem bounded_reinforceOk {s : AffinityStore} (a b : Nat) (d : ℚ)
    (h : BoundedStore s) : BoundedStore (reinforceOk s a b d) := by
  intro e he
  rcases mem_setStrength he with rfl | he'
  · exact clamp01_mem _
  · exact h e he'

theorem bounded_applyOps (s : AffinityStore) (ops : List (Nat × Nat × ℚ))
    (h : BoundedStore s) : BoundedStore (applyOps s ops) := by
  induction ops generalizing s with
  | nil => exact h
  | cons op rest ih =>
    obtain ⟨a, b, d⟩ := op
    unfold applyOps reinforce
    by_cases hab : a = b
    · rw [if_pos hab]
      exact ih s h
    · rw [if_neg hab]
      exact ih _ (bounded_reinforceOk a b d h)

theorem pairKey_lt (a b : Nat) (h : a ≠ b) : (pairKey a b).1 < (pairKey a b).2 := by
  unfold pairKey
  split <;> simp <;> omega

theorem pairKey_comm (a b : Nat) : pairKey a b = pairKey b a := by
  unfold pairKey
  rcases Nat.lt_trichotomy a b with h | h | h
  · rw [if_pos (Nat.le_of_lt h), if_neg (by omega)]
  · rw [h]
  · rw [if_neg (by omega), if_pos (Nat.le_of_lt h)]

theorem wf_reinforceOk {s : AffinityStore} (a b : Nat) (d : ℚ) (hab : a ≠ b)
    (h : WFStore s) : WFStore (reinforceOk s a b d) := by
  intro e he
  rcases mem_setStrength he with rfl | he'
  · exact pairKey_lt a b hab
  · exact h e he'

/-- Stores reachable by any sequence of reinforcements from a well-formed store
stay well-formed: reinforcement only writes normalised keys of distinct pairs. -/
theorem wf_applyOps (s : AffinityStore) (ops : List (Nat × Nat × ℚ))
    (h : WFStore s) : WFStore (applyOps s ops) := by
  induction ops generalizing s with
  | nil => exact h
  | cons op rest ih =>
    obtain ⟨a, b, d⟩ := op
    unfold applyOps reinforce
    by_cases hab : a = b
    · rw [if_pos hab]
      exact ih s h
    · rw [if_neg hab]
      exact ih _ (wf_reinforceOk a b d hab h)

theorem get_strength_reinforceOk (s : AffinityStore) (a b : Nat) (d : ℚ) :
    get_strength (reinforceOk s a b d) a b = clamp01 (get_strength s a b + d) := by
  unfold reinforceOk get_strength
  rw [findStrength_setStrength]

/-! ### Selector lemmas -/

theorem mem_insertBy {α : Type} (le : α → α → Bool) (x a : α) (l : List α) :
    a ∈ insertBy le x l ↔ a = x ∨ a ∈ l := by
  induction l with
  | nil => simp [insertBy]
  | cons y rest ih =>
    unfold insertBy
    by_cases h : le x y = true
    · rw [if_pos h]
      simp [List.mem_cons]
    · rw [if_neg h]
      simp only [List.mem_cons, ih]
      tauto

theorem mem_sortBy {α : Type} (le : α → α → Bool) (a : α) (l : List α) :
    a ∈ sortBy le l ↔ a ∈ l := by
  induction l with
  | nil => simp [sortBy]
  | cons x rest ih =>
    unfold sortBy
    rw [mem_insertBy, ih]
    simp [List.mem_cons]

theorem get_project_eq_some {catalog : List ProjectSummary} {pid : Nat}
    {activeOnly : Bool} {q : ProjectSummary}
    (h : get_project catalog pid activeOnly = some q) :
    q.project_id = pid ∧ (activeOnly = true → q.active = true) := by
  induction catalog with
  | nil => simp [get_project] at h
  | cons p rest ih =>
    unfold get_project at h
    by_cases hc : (p.project_id == pid && (!activeOnly || p.active)) = true
    · rw [if_pos hc] at h
      injection h with h
      subst h
      rw [Bool.and_eq_true, Bool.or_eq_true, beq_iff_eq] at hc
      refine ⟨hc.1, fun hao => ?_⟩
      rcases hc.2 with h' | h'
      · rw [hao] at h'
        exact absurd h' (by simp)
      · exact h'
    · rw [if_neg hc] at h
      exact ih h

theorem mem_insertSet {acc : List ProjectSummary} {p q : ProjectSummary}
    (h : q ∈ insertSet acc p) : q ∈ acc ∨ q = p := by
  unfold insertSet at h
  by_cases hm : p ∈ acc
  · rw [if_pos hm] at h
    exact Or.inl h
  · rw [if_neg hm] at h
    simpa using h

theorem length_insertSet (acc : List ProjectSummary) (p : ProjectSummary) :
    (insertSet acc p).length ≤ acc.length + 1 := by
  unfold insertSet
  split <;> simp

theorem get_links_ne (s : AffinityStore) (p : Nat) (hwf : WFStore s) :
    ∀ l ∈ get_links_for_project s p, l.project_2 ≠ p := by
  intro l hl
  unfold get_links_for_project at hl
  rw [mem_sortBy] at hl
  obtain ⟨e, he, rfl⟩ := List.mem_map.mp hl
  have hlt := hwf e (List.mem_filter.mp he).1
  show (if e.1.1 == p then e.1.2 else e.1.1) ≠ p
  by_cases h1 : e.1.1 = p
  · rw [if_pos (by simp [h1])]
    omega
  · rw [if_neg (by simp [h1])]
    exact h1

theorem mem_get_most_viewed {catalog : List ProjectSummary} {n : Nat}
    {q : ProjectSummary} (hq : q ∈ get_most_viewed_projects catalog n true) :
    q.active = true := by
  unfold get_most_viewed_projects at hq
  have hq2 := List.take_subset n _ hq
  rw [mem_sortBy] at hq2
  have := (List.mem_filter.mp hq2).2
  simpa using this

theorem linkStep_sound (catalog : List ProjectSummary) (activeOnly : Bool)
    (p_id : Nat) (links : List Link) :
    ∀ acc : List ProjectSummary,
      acc.length ≤ 4 →
      (∀ q ∈ acc, q.project_id ≠ p_id ∧ (activeOnly = true → q.active = true)) →
      (∀ l ∈ links, l.project_2 ≠ p_id) →
      (linkStep catalog activeOnly links acc).length ≤ 4 ∧
        ∀ q ∈ linkStep catalog activeOnly links acc,
          q.project_id ≠ p_id ∧ (activeOnly = true → q.active = true) := by
  induction links with
  | nil =>
    intro acc h4 hacc _
    exact ⟨h4, hacc⟩
  | cons l rest ih =>
    intro acc h4 hacc hlinks
    unfold linkStep
    by_cases hb : 4 ≤ acc.length
    · rw [if_pos hb]
      exact ⟨h4, hacc⟩
    · rw [if_neg hb]
      cases hgp : get_project catalog l.project_2 activeOnly with
      | none =>
        exact ih _ h4 hacc (fun l' hl' => hlinks l' (List.mem_cons_of_mem _ hl'))
      | some pr =>
        refine ih _ ?_ ?_ (fun l' hl' => hlinks l' (List.mem_cons_of_mem _ hl'))
        · have := length_insertSet acc pr
          omega
        · intro q hq
          rcases mem_insertSet hq with hq' | rfl
          · exact hacc q hq'
          · obtain ⟨hid, hact⟩ := get_project_eq_some hgp
            refine ⟨?_, hact⟩
            rw [hid]
            exact hlinks l (List.mem_cons_self _ _)

theorem fillLoop_sound (p_id : Nat) (A : ProjectSummary → Prop)
    (most : List ProjectSummary) :
    ∀ acc out : List ProjectSummary,
      fillLoop p_id most acc = some out →
      acc.length ≤ 4 →
      (∀ q ∈ acc, q.project_id ≠ p_id ∧ A q) →
      (∀ q ∈ most, A q) →
      out.length ≤ 4 ∧ ∀ q ∈ out, q.project_id ≠ p_id ∧ A q := by
  induction most with
  | nil =>
    intro acc out h h4 hacc _
    unfold fillLoop at h
    by_cases hb : 4 ≤ acc.length
    · rw [if_pos hb] at h
      injection h with h
      subst h
      exact ⟨h4, hacc⟩
    · rw [if_neg hb] at h
      cases h
  | cons pr rest ih =>
    intro acc out h h4 hacc hmost
    unfold fillLoop at h
    by_cases hb : 4 ≤ acc.length
    · rw [if_pos hb] at h
      injection h with h
      subst h
      exact ⟨h4, hacc⟩
    · rw [if_neg hb] at h
      by_cases hpid : (pr.project_id == p_id) = true
      · rw [if_pos hpid] at h
        exact ih acc out h h4 hacc (fun q hq => hmost q (List.mem_cons_of_mem _ hq))
      · rw [if_neg hpid] at h
        refine ih _ out h ?_ ?_ (fun q hq => hmost q (List.mem_cons_of_mem _ hq))
        · have := length_insertSet acc pr
          omega
        · intro q hq
          rcases mem_insertSet hq with hq' | hq'
          · exact hacc q hq'
          · rw [hq']
            exact ⟨by simpa using hpid, hmost pr (List.mem_cons_self _ _)⟩

theorem get_related_sound (catalog : List ProjectSummary) (store : AffinityStore)
    (p_id : Nat) (links : List ProjectSummary) (hwf : WFStore store)
    (h : get_related catalog store p_id true = some links) :
    links.length ≤ 4 ∧ ∀ q ∈ links, q.project_id ≠ p_id ∧ q.active = true := by
  unfold get_related at h
  have hafter := linkStep_sound catalog true p_id (get_links_for_project store p_id) []
    (by simp) (by simp) (get_links_ne store p_id hwf)
  by_cases hlen :
      (linkStep catalog true (get_links_for_project store p_id) []).length < 4
  · rw [if_pos hlen] at h
    refine fillLoop_sound p_id (fun q => q.active = true) _ _ links h hafter.1
      (fun q hq => ⟨(hafter.2 q hq).1, (hafter.2 q hq).2 rfl⟩)
      (fun q hq => mem_get_most_viewed hq)
  · rw [if_neg hlen] at h
    injection h with h
    subst h
    exact ⟨hafter.1, fun q hq => ⟨(hafter.2 q hq).1, (hafter.2 q hq).2 rfl⟩⟩

theorem link_mem_get_links {s : AffinityStore} {e : (Nat × Nat) × ℚ} (p : Nat)
    (he : e ∈ s) (hp : (e.1.1 == p || e.1.2 == p) = true) :
    (⟨p, if e.1.1 == p then e.1.2 else e.1.1, e.2⟩ : Link) ∈ get_links_for_project s p := by
  unfold get_links_for_project
  rw [mem_sortBy]
  exact List.mem_map_of_mem _ (List.mem_filter.mpr ⟨he, hp⟩)

/-! ### Claim theorems -/

/-- Claim C1: the claim states that when the most-viewed fallback batch is
exhausted before four unique candidates are collected, the selection terminates
gracefully with the short list of all eligible candidates. The code instead
indexes past the end of the batch: on a catalog of two active projects the
fallback loop raises IndexError (modelled as `none` / `Except.error`), so the
handler fails instead of returning the one eligible candidate. -/
theorem c1_fallback_reads_past_batch :
    get_related tinyCatalog [] 1 true = none ∧
    get_all_project_data tinyCatalog [] [("archive", false)] 1 =
      Except.error ("IndexError") := by
  constructor
  · rfl
  · rfl

/-- Claim C2: a click-through from a project to itself (both `from` and
`project_id` request arguments equal) is rejected with `InvalidPair` and the
affinity store is left unchanged — no reinforcement is applied for a
self-pair. -/
theorem c2_self_click_rejected (store : AffinityStore) (args : List (String × Nat))
    (x : Nat) (hf : lookupArg args ("from") = some x)
    (hp : lookupArg args ("project_id") = some x) :
    project_page store args = (store, Outcome.raised ("InvalidPair")) := by
  unfold project_page
  rw [hf, hp]
  show (match reinforce store x x (1/20) with
    | Except.ok s2 => (s2, Outcome.rendered)
    | Except.error e => (store, Outcome.raised e)) =
      (store, Outcome.raised ("InvalidPair"))
  unfold reinforce
  rw [if_pos rfl]

/-- Witness for C2 at project 10 (the spec's Scenario C). -/
theorem c2_self_click_rejected_witness :
    lookupArg [("from", 10), ("project_id", 10)] ("from") = some 10 ∧
    lookupArg [("from", 10), ("project_id", 10)] ("project_id") = some 10 ∧
    project_page [] [("from", 10), ("project_id", 10)] =
      ([], Outcome.raised ("InvalidPair")) :=
  ⟨rfl, rfl, c2_self_click_rejected [] [("from", 10), ("project_id", 10)] 10 rfl rfl⟩

/-- Claim C3: over any well-formed store, the related-projects selection with
the active-only filter never returns the source project itself, never returns
an archived project, and never returns more than four entries — the
explicit-link step included, not only the popularity fallback. -/
theorem c3_related_bounded_no_self_no_archived (catalog : List ProjectSummary)
    (store : AffinityStore) (p_id : Nat) (links : List ProjectSummary)
    (hwf : WFStore store) (h : get_related catalog store p_id true = some links) :
    links.length ≤ 4 ∧ ∀ q ∈ links, q.project_id ≠ p_id ∧ q.active = true :=
  get_related_sound catalog store p_id links hwf h

/-- Witness for C3: a five-project catalog with an explicit link from project 1
to project 2; the link step contributes project 2 and the fallback pads with
projects 3, 4 and 5. -/
theorem c3_related_bounded_witness :
    WFStore demoStore ∧
    get_related demoCatalog demoStore 1 true = some demoRelated ∧
    (demoRelated.length ≤ 4 ∧ ∀ q ∈ demoRelated, q.project_id ≠ 1 ∧ q.active = true) := by
  have h1 : WFStore demoStore := by decide
  have h2 : get_related demoCatalog demoStore 1 true = some demoRelated := by decide
  exact ⟨h1, h2, c3_related_bounded_no_self_no_archived demoCatalog demoStore 1 demoRelated h1 h2⟩

/-- Claim C4 counterexample: the claim states that a failing store operation is
never surfaced to the caller, and in particular that the project-page handler
still returns its normal response when reinforcement fails. At `from = 7`,
`project_id = 7` the reinforcement fails and the handler — which wraps the call
in no try/except — propagates the failure instead of rendering the page. -/
theorem c4_counterexample_failure_surfaced :
    project_page [] [("from", 7), ("project_id", 7)] =
      ([], Outcome.raised ("InvalidPair")) ∧
    (project_page [] [("from", 7), ("project_id", 7)]).2 ≠ Outcome.rendered := by
  constructor
  · rfl
  · decide

/-- Claim C4 as amended: `add_view` and `update_recommendations` swallow store
failures (returning a bare empty response), and `register_user_data` returns a
JSON response rather than propagating; but the project-page click-through
handler has no exception guard, so a reinforcement failure propagates to the
caller instead of its normal rendered response. -/
theorem c4_amended_best_effort :
    (∀ e : String, add_view (Except.error e) = Outcome.empty) ∧
    (∀ (auth : Bool) (role : String) (s : AffinityStore) (a : Nat) (q : ℚ),
        update_recommendations auth role s a a q = (s, Outcome.empty)) ∧
    (∀ (p : Nat) (sess : List (String × Nat)) (e : String) (c : Except String Unit),
        register_user_data p sess (Except.error e) c =
          { success := true, message := some (registerFailMsg p), status := 400 }) ∧
    (∀ (s : AffinityStore) (x : Nat),
        (project_page s [("from", x), ("project_id", x)]).2 =
          Outcome.raised ("InvalidPair")) := by
  refine ⟨fun e => rfl, fun auth role s a q => ?_, fun p sess e c => rfl, fun s x => ?_⟩
  · unfold update_recommendations reinforce
    rw [if_pos rfl]
  · have h1 : lookupArg [("from", x), ("project_id", x)] ("from") = some x := rfl
    have h2 : lookupArg [("from", x), ("project_id", x)] ("project_id") = some x := rfl
    unfold project_page
    rw [h1, h2]
    show (match reinforce s x x (1/20) with
      | Except.ok s2 => (s2, Outcome.rendered)
      | Except.error e => (s, Outcome.raised e)).2 = Outcome.raised ("InvalidPair")
    unfold reinforce
    rw [if_pos rfl]

/-- Claim C5: starting from the empty store, after any finite sequence of
reinforcement operations (click-through increments and manual adjustments of
arbitrary sign) the stored strength of every pair lies between 0 and 1 — every
reinforcement clamps its result. -/
theorem c5_strength_always_clamped (ops : List (Nat × Nat × ℚ)) (a b : Nat) :
    0 ≤ get_strength (applyOps [] ops) a b ∧ get_strength (applyOps [] ops) a b ≤ 1 :=
  get_strength_bounded _ a b
    (bounded_applyOps [] ops (fun e he => absurd he (List.not_mem_nil e)))

/-- Claim C6: every click-through from project `a` to a distinct project `b`
applies exactly one reinforcement of the fixed increment 0.05 (= 1/20) to the
unordered pair: the handler's store equals one `reinforceOk` of 1/20, and the
pair's new strength is the old one plus 1/20, clamped. -/
theorem c6_fixed_increment (store : AffinityStore) (args : List (String × Nat))
    (a b : Nat) (hab : a ≠ b)
    (hf : lookupArg args ("from") = some a)
    (hp : lookupArg args ("project_id") = some b) :
    project_page store args = (reinforceOk store a b (1/20), Outcome.rendered) ∧
    get_strength (project_page store args).1 a b =
      clamp01 (get_strength store a b + 1/20) := by
  have h1 : project_page store args = (reinforceOk store a b (1/20), Outcome.rendered) := by
    unfold project_page
    rw [hf, hp]
    show (match reinforce store a b (1/20) with
      | Except.ok s2 => (s2, Outcome.rendered)
      | Except.error e => (store, Outcome.raised e)) =
        (reinforceOk store a b (1/20), Outcome.rendered)
    unfold reinforce
    rw [if_neg hab]
  refine ⟨h1, ?_⟩
  rw [h1]
  exact get_strength_reinforceOk store a b (1/20)

/-- Witness for C6 at the pair (1, 2) over the empty store. -/
theorem c6_fixed_increment_witness :
    (1 : Nat) ≠ 2 ∧
    project_page [] [("from", 1), ("project_id", 2)] =
      (reinforceOk [] 1 2 (1/20), Outcome.rendered) ∧
    get_strength (project_page [] [("from", 1), ("project_id", 2)]).1 1 2 =
      clamp01 (get_strength [] 1 2 + 1/20) := by
  have h := c6_fixed_increment [] [("from", 1), ("project_id", 2)] 1 2 (by decide) rfl rfl
  exact ⟨by decide, h.1, h.2⟩

/-- Claim C7: affinity is symmetric over the unordered pair —
`get_strength(a,b) = get_strength(b,a)` for any store — and a stored link
between distinct `a` and `b` contributes `b` as a link-step candidate for `a`
and `a` as a candidate for `b`, regardless of which member is stored first in
the normalised key. -/
theorem c7_affinity_symmetric (s : AffinityStore) (a b : Nat) (v : ℚ)
    (hab : a ≠ b) (hmem : (pairKey a b, v) ∈ s) :
    get_strength s a b = get_strength s b a ∧
    (∃ l ∈ get_links_for_project s a, l.project_2 = b) ∧
    (∃ l ∈ get_links_for_project s b, l.project_2 = a) := by
  have hba : b ≠ a := Ne.symm hab
  refine ⟨by unfold get_strength; rw [pairKey_comm], ?_, ?_⟩
  · refine ⟨_, link_mem_get_links a hmem ?_, ?_⟩
    · unfold pairKey
      by_cases hle : a ≤ b
      · rw [if_pos hle]
        simp
      · rw [if_neg hle]
        simp
    · show (if (pairKey a b, v).1.1 == a then (pairKey a b, v).1.2
          else (pairKey a b, v).1.1) = b
      unfold pairKey
      by_cases hle : a ≤ b
      · rw [if_pos hle]
        simp
      · rw [if_neg hle]
        show (if b == a then a else b) = b
        rw [if_neg (by simp [hba])]
  · refine ⟨_, link_mem_get_links b hmem ?_, ?_⟩
    · unfold pairKey
      by_cases hle : a ≤ b
      · rw [if_pos hle]
        simp
      · rw [if_neg hle]
        simp
    · show (if (pairKey a b, v).1.1 == b then (pairKey a b, v).1.2
          else (pairKey a b, v).1.1) = a
      unfold pairKey
      by_cases hle : a ≤ b
      · rw [if_pos hle]
        show (if a == b then b else a) = a
        rw [if_neg (by simp [hab])]
      · rw [if_neg hle]
        simp

/-- Witness for C7 on the single-link demo store. -/
theorem c7_affinity_symmetric_witness :
    (1 : Nat) ≠ 2 ∧ (pairKey 1 2, (9 : ℚ)/10) ∈ demoStore ∧
    (get_strength demoStore 1 2 = get_strength demoStore 2 1 ∧
      (∃ l ∈ get_links_for_project demoStore 1, l.project_2 = 2) ∧
      (∃ l ∈ get_links_for_project demoStore 2, l.project_2 = 1)) := by
  have h1 : (1 : Nat) ≠ 2 := by decide
  have h2 : (pairKey 1 2, (9 : ℚ)/10) ∈ demoStore := List.mem_cons_self _ _
  exact ⟨h1, h2, c7_affinity_symmetric demoStore 1 2 ((9 : ℚ)/10) h1 h2⟩

/-- Claim C8 counterexample: the claim states that the manual
affinity-adjustment handler's effect is not available to an unauthenticated
caller — that its outcome is not independent of the authorization state. The
handler performs no authorization check: an unauthenticated anonymous caller
obtains exactly the same outcome as an authenticated admin, and the call does
change the store. -/
theorem c8_counterexample_unauthenticated_same_effect :
    update_recommendations false ("anonymous") [] 1 2 (1/2) =
      update_recommendations true ("admin") [] 1 2 (1/2) ∧
    get_strength (update_recommendations false ("anonymous") [] 1 2 (1/2)).1 1 2 =
      1/2 := by
  constructor
  · rfl
  · norm_num [update_recommendations, reinforce, reinforceOk, get_strength,
      findStrength, setStrength, pairKey, clamp01]

/-- Claim C8 as amended: the handler performs no authorization check — its
outcome (store effect and response) is identical for any two authorization
states, so the adjustment effect is available to arbitrary unauthenticated
callers. -/
theorem c8_amended_auth_independent (auth1 auth2 : Bool) (role1 role2 : String)
    (s : AffinityStore) (p1 p2 : Nat) (q : ℚ) :
    update_recommendations auth1 role1 s p1 p2 q =
      update_recommendations auth2 role2 s p1 p2 q := rfl

/-- Claim C9: when registering user data fails — the view increment raises, or
a session id is present and the click recording raises — the handler responds
with HTTP status 400 while the body still carries `success: True` together
with the failure message: the body-level flag and the status code disagree on
the error path. -/
theorem c9_failure_reports_success_with_400 (p_id : Nat)
    (sess : List (String × Nat)) (av ac : Except String Unit)
    (h : (∃ e, av = Except.error e) ∨
      ((∃ sid, lookupArg sess ("session_id") = some sid) ∧
        ∃ e, ac = Except.error e)) :
    register_user_data p_id sess av ac =
      { success := true, message := some (registerFailMsg p_id), status := 400 } := by
  rcases h with ⟨e, rfl⟩ | ⟨⟨sid, hsid⟩, ⟨e, rfl⟩⟩
  · rfl
  · cases av with
    | error e2 => rfl
    | ok u =>
      cases u
      simp only [register_user_data, hsid]

/-- Witness for C9 at project 3 with a failing view increment. -/
theorem c9_failure_reports_success_witness :
    ((∃ e, (Except.error ("db down") : Except String Unit) = Except.error e) ∨
      ((∃ sid, lookupArg ([] : List (String × Nat)) ("session_id") = some sid) ∧
        ∃ e, (Except.ok () : Except String Unit) = Except.error e)) ∧
    register_user_data 3 [] (Except.error ("db down")) (Except.ok ()) =
      { success := true, message := some (registerFailMsg 3), status := 400 } := by
  have h : (∃ e, (Except.error ("db down") : Except String Unit) = Except.error e) ∨
      ((∃ sid, lookupArg ([] : List (String × Nat)) ("session_id") = some sid) ∧
        ∃ e, (Except.ok () : Except String Unit) = Except.error e) :=
    Or.inl ⟨"db down", rfl⟩
  exact ⟨h, c9_failure_reports_success_with_400 3 [] _ _ h⟩

/-- Claim C10: `get_all_project_data` reads `session["archive"]` without a
default, so any request whose session lacks the key fails with KeyError
instead of defaulting to the active-only filter — unlike the search endpoint,
whose `session.get` yields the active-only filter on the same session. -/
theorem c10_session_archive_keyerror (catalog : List ProjectSummary)
    (store : AffinityStore) (sess : List (String × Bool)) (p_id : Nat)
    (h : lookupArg sess ("archive") = none) :
    get_all_project_data catalog store sess p_id =
      Except.error ("KeyError: archive") ∧
    search_active_only sess = true := by
  unfold get_all_project_data search_active_only
  rw [h]
  exact ⟨rfl, rfl⟩

/-- Witness for C10 on the empty session. -/
theorem c10_session_archive_keyerror_witness :
    lookupArg ([] : List (String × Bool)) ("archive") = none ∧
    get_all_project_data [] [] [] 0 = Except.error ("KeyError: archive") ∧
    search_active_only [] = true := by
  have h := c10_session_archive_keyerror [] [] [] 0 rfl
  exact ⟨rfl, h.1, h.2⟩

end Esp
